import Mathlib

/-!
Verification of the LumiTime hot-moment detection pipeline, the live-state
watcher edge detection, and the YouTube API key rotation, as a shallow
embedding of the Go source.

Floating-point values of the source (`float64`) are modelled as rationals:
every arithmetic operation the pipeline performs on reachable inputs
(integer-valued counts, their sums, floors/ceilings of comment offsets, the
percentile index) is exact in `float64` at these magnitudes, so the rational
model computes the same values the Go code does.  Go `int` is modelled as
`ℤ` (no computation here approaches the 64-bit range).  String-valued,
purely presentational fields (`TimeInterval`, `FormattedTime`) and the
`Sigma = sqrt(variance)` statistic are omitted from the embedded records:
no algorithmic decision reads them (the stats record keeps the variance,
which determines sigma).
-/

namespace LumiTime

/-- `models.TwitchChatComment`, restricted to the field the detector reads. -/
structure TwitchChatComment where
  contentOffsetSeconds : ℚ
deriving DecidableEq

/-- `PeakDetectionParams` (part_012 lines 51-55). -/
structure PeakDetectionParams where
  windowsLen : ℤ
  thr : ℚ
  searchRange : ℤ
deriving DecidableEq

/-- `VodCommentData` (part_012 lines 19-24), without the presentational
string fields. -/
structure VodCommentData where
  commentsScore : ℚ
  offsetSeconds : ℚ
deriving DecidableEq

/-- `TimeSeriesDataPoint` (part_012 lines 27-32), without the formatted
time string. -/
structure TimeSeriesDataPoint where
  offsetSeconds : ℚ
  score : ℚ
  isPeak : Bool
deriving DecidableEq

/-- `VodCommentStats` (part_012 lines 42-48).  The Go code stores
`Sigma = sqrt(variance)`; the square root of a rational is irrational in
general, so the embedding keeps the variance itself. -/
structure VodCommentStats where
  mean : ℚ
  variance : ℚ
  count : ℕ
deriving DecidableEq

/-- `AnalysisResultWithTimeSeries` (part_012 lines 35-39). -/
structure AnalysisResultWithTimeSeries where
  hotMoments : List VodCommentData
  timeSeriesData : List TimeSeriesDataPoint
  stats : VodCommentStats
deriving DecidableEq

/-- `convSame` (part_012 lines 314-334): convolution in MATLAB `same`
mode.  The loop accumulator is rendered as a sum over the kernel index. -/
def convSame (signal kernel : List ℚ) : List ℚ :=
  (List.range signal.length).map fun (i : ℕ) =>
    ((List.range kernel.length).map fun (j : ℕ) =>
      let signalIndex : ℤ := (i : ℤ) - ((kernel.length - 1) / 2 : ℕ) + (j : ℤ)
      if 0 ≤ signalIndex ∧ signalIndex < (signal.length : ℤ) then
        signal.getD signalIndex.toNat 0 * kernel.getD j 0
      else 0).sum

/-- `sort.Float64s` (part_012 line 207): the ascending sort of the density
array.  A sorted permutation of a given list of rationals is unique as a
list, so insertion sort is observationally the Go sort. -/
def sortAsc (l : List ℚ) : List ℚ := l.insertionSort (· ≤ ·)

/-- The threshold-density computation of `findPeakWithParams`
(part_012 lines 204-213). -/
def thrDensityOf (density : List ℚ) (thr : ℚ) : ℚ :=
  let sorted := sortAsc density
  let thrIndex := (⌊(density.length : ℚ) * thr⌋).toNat
  let thrIndex := if sorted.length ≤ thrIndex then sorted.length - 1 else thrIndex
  sorted.getD thrIndex 0

/-- The padded density array of `findPeakWithParams`
(part_012 lines 216-226): `searchRange` zeros on each side. -/
def padDensity (density : List ℚ) (sr : ℕ) : List ℚ :=
  List.replicate sr 0 ++ density ++ List.replicate sr 0

/-- The slice `commentDenPad[ind-searchRange : ind+searchRange+1]` with
`ind = i + searchRange` (part_012 lines 239-240). -/
def codeWindow (density : List ℚ) (sr : ℕ) (i : ℕ) : List ℚ :=
  ((padDensity density sr).drop i).take (2 * sr + 1)

/-- The maximum-of-slice loop (part_012 lines 243-248): start from the
first element, replace whenever a strictly larger value appears. -/
def maxFold (w : List ℚ) : ℚ := w.foldl max (w.getD 0 0)

/-- The peak-marking loop of `findPeakWithParams`
(part_012 lines 229-254). -/
def nmsMarks (density : List ℚ) (thrDensity : ℚ) (sr : ℕ) : List Bool :=
  (List.range density.length).map fun i =>
    if density.getD i 0 < thrDensity then false
    else decide (density.getD i 0 = maxFold (codeWindow density sr i))

/-- `findPeakWithParams` (part_012 lines 189-257).  The kernel is
`windowsLen + 1` ones; a negative `windowsLen` below `-1` would make the
Go `make` panic, which is unreachable because every caller passes the
normalized parameters; `Int.toNat` renders the same values on the
reachable range. -/
def findPeakWithParams (comment : List ℚ) (params : PeakDetectionParams) :
    List Bool × List ℚ :=
  if comment.length = 0 then ([], [])
  else
    let kernel : List ℚ := List.replicate (params.windowsLen + 1).toNat 1
    let commentDensity := convSame comment kernel
    let thrDensity := thrDensityOf commentDensity params.thr
    (nmsMarks commentDensity thrDensity params.searchRange.toNat, commentDensity)

/-- The maximum-score selection inside a merge group
(part_012 lines 292-300): strict `>` keeps the earliest maximal element. -/
def pickMax (best : VodCommentData) : List VodCommentData → VodCommentData
  | [] => best
  | x :: xs => pickMax (if best.commentsScore < x.commentsScore then x else best) xs

/-- Ordering of hot moments by offset, the comparator of the
`sort.Slice` call in `mergeCloseHotMoments`. -/
def offLE (a b : VodCommentData) : Prop := a.offsetSeconds ≤ b.offsetSeconds

instance : DecidableRel offLE := fun a b =>
  inferInstanceAs (Decidable (a.offsetSeconds ≤ b.offsetSeconds))

instance : IsTotal VodCommentData offLE :=
  ⟨fun a b => le_total a.offsetSeconds b.offsetSeconds⟩

instance : IsTrans VodCommentData offLE :=
  ⟨fun _ _ _ h1 h2 => le_trans h1 h2⟩

/-- `sort.Slice` by `OffsetSeconds` (part_012 lines 267-269).  All call
sites sort lists whose offsets are pairwise distinct, on which every
correct sort agrees with insertion sort. -/
def sortByOffset (l : List VodCommentData) : List VodCommentData :=
  l.insertionSort offLE

/-- One pass of the grouping loop of `mergeCloseHotMoments`
(part_012 lines 272-307): gather the run of moments within `searchRange`
of the group head, keep the highest-scoring one, continue after the run. -/
def mergeGroups (sr : ℚ) : List VodCommentData → List VodCommentData
  | [] => []
  | h :: t =>
    pickMax h (t.takeWhile fun m => m.offsetSeconds - h.offsetSeconds ≤ sr) ::
      mergeGroups sr (t.dropWhile fun m => m.offsetSeconds - h.offsetSeconds ≤ sr)
termination_by l => l.length
decreasing_by
  simp only [List.length_cons]
  exact Nat.lt_succ_of_le (List.dropWhile_sublist _).length_le

/-- `mergeCloseHotMoments` (part_012 lines 261-310). -/
def mergeCloseHotMoments (hotMoments : List VodCommentData) (searchRange : ℤ) :
    List VodCommentData :=
  if hotMoments.length ≤ 1 then hotMoments
  else mergeGroups (searchRange : ℚ) (sortByOffset hotMoments)

/-- The default-substitution block of `FindHotCommentsWithParams`
(part_012 lines 83-92). -/
def normalizeParams (params : PeakDetectionParams) : PeakDetectionParams where
  windowsLen := if params.windowsLen ≤ 0 then 120 else params.windowsLen
  thr := if params.thr ≤ 0 ∨ 1 < params.thr then 9 / 10 else params.thr
  searchRange := if params.searchRange ≤ 0 then 60 else params.searchRange

/-- The per-second counting loop of `FindHotCommentsWithParams`
(part_012 lines 117-125). -/
def countPerSecond (offsets : List ℚ) (totalSeconds : ℕ) : List ℚ :=
  offsets.foldl
    (fun acc offset =>
      let timeIndex := ⌊offset⌋
      if 0 ≤ timeIndex ∧ timeIndex < (totalSeconds : ℤ) then
        acc.set timeIndex.toNat (acc.getD timeIndex.toNat 0 + 1)
      else acc)
    (List.replicate totalSeconds 0)

/-- The running-maximum loop for the largest offset
(part_012 lines 108-113), starting from `0.0`. -/
def maxOffsetOf (offsets : List ℚ) : ℚ :=
  offsets.foldl (fun m o => if m < o then o else m) 0

/-- The extracted offset list (part_012 lines 95-98). -/
def detectOffsets (comments : List TwitchChatComment) : List ℚ :=
  comments.map (·.contentOffsetSeconds)

/-- `totalSeconds := int(math.Ceil(maxOffset)) + 1` (part_012 line 116). -/
def detectTotalSeconds (comments : List TwitchChatComment) : ℕ :=
  (⌈maxOffsetOf (detectOffsets comments)⌉).toNat + 1

/-- The per-second comment count array of the detector. -/
def detectCount (comments : List TwitchChatComment) : List ℚ :=
  countPerSecond (detectOffsets comments) (detectTotalSeconds comments)

/-- The density signal computed by the detector for given caller
parameters (after default substitution, as in the source). -/
def detectDensity (comments : List TwitchChatComment)
    (params : PeakDetectionParams) : List ℚ :=
  (findPeakWithParams (detectCount comments) (normalizeParams params)).2

/-- The hot-moment list before the merge pass
(part_012 lines 142-152). -/
def detectPreMerge (comments : List TwitchChatComment)
    (params : PeakDetectionParams) : List VodCommentData :=
  let pr := findPeakWithParams (detectCount comments) (normalizeParams params)
  ((List.range pr.1.length).filter fun i => pr.1.getD i false).map fun (i : ℕ) =>
    { commentsScore := pr.2.getD i 0, offsetSeconds := (i : ℚ) }

/-- The statistics block (part_012 lines 158-170), keeping the variance in
place of its square root. -/
def statsOf (ts : List TimeSeriesDataPoint) : VodCommentStats :=
  let count := ts.length
  let sum := (ts.map (·.score)).sum
  let sumSq := (ts.map fun p => p.score * p.score).sum
  if count = 0 then ⟨0, 0, 0⟩
  else
    { mean := sum / (count : ℚ)
      variance :=
        if 1 < count then (sumSq - sum * sum / (count : ℚ)) / ((count : ℚ) - 1)
        else 0
      count := count }

/-- `FindHotCommentsWithParams` (part_012 lines 70-177).  The `secondsDt`
argument is defaulted to 5 by the source when non-positive but is never
read afterwards; it is kept for signature fidelity. -/
def FindHotCommentsWithParams (comments : List TwitchChatComment)
    (secondsDt : ℤ) (params : PeakDetectionParams) :
    AnalysisResultWithTimeSeries :=
  if comments.length = 0 then ⟨[], [], ⟨0, 0, 0⟩⟩
  else
    let _ := if secondsDt ≤ 0 then (5 : ℤ) else secondsDt
    let np := normalizeParams params
    let pr := findPeakWithParams (detectCount comments) np
    let timeSeriesData := (List.range pr.2.length).map fun (i : ℕ) =>
      TimeSeriesDataPoint.mk (i : ℚ) (pr.2.getD i 0) (pr.1.getD i false)
    let hotMoments :=
      mergeCloseHotMoments (detectPreMerge comments params) np.searchRange
    ⟨hotMoments, timeSeriesData, statsOf timeSeriesData⟩

/-! ### Spec-side definitions

These follow the wording of the specification and are compared against the
code-side definitions above. -/

/-- The spec's indexing convention for the convolution and the search
window: an out-of-range index contributes zero. -/
def boundedGet (l : List ℚ) (z : ℤ) : ℚ :=
  if 0 ≤ z ∧ z < (l.length : ℤ) then l.getD z.toNat 0 else 0

/-- The spec's zero-padded search window
`density[i-searchRange .. i+searchRange]`. -/
def specWindow (density : List ℚ) (sr : ℕ) (i : ℕ) : List ℚ :=
  (List.range (2 * sr + 1)).map fun (k : ℕ) =>
    boundedGet density ((i : ℤ) - (sr : ℤ) + (k : ℤ))

/-- Moments within `sr` seconds of one another carry equal scores; the
non-maximum suppression output satisfies this, and it is what makes the
merge pass keep group heads. -/
def eqWithin (sr : ℚ) (l : List VodCommentData) : Prop :=
  ∀ a ∈ l, ∀ b ∈ l, |a.offsetSeconds - b.offsetSeconds| ≤ sr →
    a.commentsScore = b.commentsScore

/-! ### Live-state watcher model

`checkStreamerStatus` (twitch_handler.go lines 1579-1632): a probe either
errors (the function returns before touching the stored state) or reports
the current liveness; the stored state entry is created with
`isLive = false` on first observation; post-broadcast processing starts
exactly when the previous state was live and the probe reports offline. -/

/-- Outcome of one status probe. -/
inductive ProbeResult where
  | ok (live : Bool)
  | err
deriving DecidableEq

/-- One tick of `checkStreamerStatus` for one streamer: takes the stored
`isLive` entry (`none` when the streamer was never observed) and the probe
outcome; returns the new stored entry and whether the `BroadcastEnded`
processing was triggered. -/
def checkStreamerStatusStep (st : Option Bool) (probe : ProbeResult) :
    Option Bool × Bool :=
  match probe with
  | .err => (st, false)
  | .ok curr =>
    let previousIsLive := (st.getD false)
    (some curr, !curr && previousIsLive)

/-- Iterates `checkStreamerStatusStep` over a probe sequence, returning
the per-tick trigger flags. -/
def runTicks (st : Option Bool) : List ProbeResult → List Bool
  | [] => []
  | p :: ps =>
    let r := checkStreamerStatusStep st p
    r.2 :: runTicks r.1 ps

/-! ### YouTube API key rotation model

`rotateAPIKey` and `makeRequestWithRetry` (youtube_handler.go lines
107-184).  The upstream is modelled as the list of outcomes the successive
HTTP attempts would observe. -/

/-- What one HTTP attempt observes. -/
inductive AttemptOutcome where
  | netErr
  | status (code : ℕ)
deriving DecidableEq

/-- Observable behaviour of `makeRequestWithRetry`: the returned response
status (`none` when the function returns an error), the key index used by
each attempt, and the total milliseconds slept. -/
structure RetryTrace where
  result : Option ℕ
  attemptKeys : List ℕ
  sleepMs : ℕ
deriving DecidableEq

/-- `rotateAPIKey` (youtube_handler.go lines 108-123): advance the shared
cursor to the next key, wrapping around the ordered pool. -/
def rotateIndex (poolLen idx : ℕ) : ℕ := (idx + 1) % poolLen

/-- The retry loop of `makeRequestWithRetry` (youtube_handler.go lines
134-180): `fuel` is the number of loop iterations left (`maxRetries`
initially), `idx` the shared key cursor.  A network error rotates and
retries without sleeping; 403/429 rotates, sleeps 500 ms and retries; any
other status is returned as-is. -/
def retryLoopAux (poolLen : ℕ) (idx : ℕ) : List AttemptOutcome → ℕ → RetryTrace
  | _, 0 => ⟨none, [], 0⟩
  | [], _ => ⟨none, [], 0⟩
  | .netErr :: rest, fuel + 1 =>
    let t := retryLoopAux poolLen (rotateIndex poolLen idx) rest fuel
    ⟨t.result, idx :: t.attemptKeys, t.sleepMs⟩
  | .status c :: rest, fuel + 1 =>
    if c = 403 ∨ c = 429 then
      let t := retryLoopAux poolLen (rotateIndex poolLen idx) rest fuel
      ⟨t.result, idx :: t.attemptKeys, 500 + t.sleepMs⟩
    else ⟨some c, [idx], 0⟩

/-- `makeRequestWithRetry` (youtube_handler.go lines 126-184):
`maxRetries = len(pool)`; an empty pool returns an error at once. -/
def makeRequestWithRetry (poolLen : ℕ) (idx : ℕ)
    (outcomes : List AttemptOutcome) : RetryTrace :=
  if poolLen = 0 then ⟨none, [], 0⟩
  else retryLoopAux poolLen idx outcomes poolLen

/-! ### Basic list lemmas -/

lemma getD_map_range {α : Type} (f : ℕ → α) {n i : ℕ} (h : i < n) (d : α) :
    ((List.range n).map f).getD i d = f i := by
  simp [List.getD_eq_getElem?_getD, List.getElem?_map, List.getElem?_range, h]

lemma getD_replicate {α : Type} {n i : ℕ} (x d : α) (h : i < n) :
    (List.replicate n x).getD i d = x := by
  simp [List.getD_eq_getElem?_getD, List.getElem?_replicate, h]

lemma length_convSame (signal kernel : List ℚ) :
    (convSame signal kernel).length = signal.length := by
  simp [convSame]

lemma convSame_getD (signal kernel : List ℚ) {i : ℕ} (h : i < signal.length) :
    (convSame signal kernel).getD i 0 =
      ((List.range kernel.length).map fun (j : ℕ) =>
        if 0 ≤ (i : ℤ) - ((kernel.length - 1) / 2 : ℕ) + (j : ℤ) ∧
            (i : ℤ) - ((kernel.length - 1) / 2 : ℕ) + (j : ℤ) < (signal.length : ℤ) then
          signal.getD ((i : ℤ) - ((kernel.length - 1) / 2 : ℕ) + (j : ℤ)).toNat 0 *
            kernel.getD j 0
        else 0).sum := by
  unfold convSame
  rw [getD_map_range _ h]

/-- C2, code side versus spec side: with the all-ones kernel of length
`windowsLen + 1`, each density entry is the spec's windowed sum. -/
lemma convSame_ones_getD (count : List ℚ) (wl : ℕ) {i : ℕ} (h : i < count.length) :
    (convSame count (List.replicate (wl + 1) 1)).getD i 0 =
      ((List.range (wl + 1)).map fun (k : ℕ) =>
        boundedGet count ((i : ℤ) - (wl / 2 : ℕ) + (k : ℤ))).sum := by
  rw [convSame_getD _ _ h]
  simp only [List.length_replicate, Nat.add_sub_cancel]
  apply congrArg List.sum
  apply List.map_congr_left
  intro j hj
  rw [List.mem_range] at hj
  rw [getD_replicate _ _ hj, mul_one]
  rfl

/-! ### Maximum-of-window lemmas -/

lemma le_foldl_max (l : List ℚ) (b : ℚ) : b ≤ l.foldl max b := by
  induction l generalizing b with
  | nil => exact le_refl b
  | cons x xs ih => exact le_trans (le_max_left b x) (ih (max b x))

lemma mem_le_foldl_max {l : List ℚ} {a : ℚ} (h : a ∈ l) (b : ℚ) :
    a ≤ l.foldl max b := by
  induction l generalizing b with
  | nil => cases h
  | cons x xs ih =>
    rcases List.mem_cons.mp h with rfl | hx
    · exact le_trans (le_max_right b a) (le_foldl_max xs (max b a))
    · exact ih hx (max b x)

lemma foldl_max_le {l : List ℚ} {b c : ℚ} (hb : b ≤ c) (h : ∀ a ∈ l, a ≤ c) :
    l.foldl max b ≤ c := by
  induction l generalizing b with
  | nil => exact hb
  | cons x xs ih =>
    exact ih (max_le hb (h x (List.mem_cons_self x xs)))
      fun a ha => h a (List.mem_cons_of_mem _ ha)

lemma le_maxFold {w : List ℚ} {a : ℚ} (h : a ∈ w) : a ≤ maxFold w :=
  mem_le_foldl_max h _

lemma maxFold_le {w : List ℚ} {c : ℚ} (hne : w ≠ []) (h : ∀ a ∈ w, a ≤ c) :
    maxFold w ≤ c := by
  cases w with
  | nil => exact absurd rfl hne
  | cons x xs =>
    exact foldl_max_le (h x (List.mem_cons_self x xs)) h

/-! ### Padded window versus spec window -/

lemma getD_zero_replicate (n i : ℕ) : (List.replicate n (0 : ℚ)).getD i 0 = 0 := by
  rcases Nat.lt_or_ge i n with h | h
  · exact getD_replicate _ _ h
  · exact List.getD_eq_default _ _ (by simpa using h)

lemma length_padDensity (d : List ℚ) (sr : ℕ) :
    (padDensity d sr).length = d.length + 2 * sr := by
  simp [padDensity]; ring

lemma padDensity_getD (d : List ℚ) (sr : ℕ) (j : ℕ) :
    (padDensity d sr).getD j 0 = boundedGet d ((j : ℤ) - (sr : ℤ)) := by
  unfold padDensity boundedGet
  rcases Nat.lt_or_ge j (sr + d.length) with h1 | h1
  · rw [List.getD_append _ _ _ _ (by simpa using h1)]
    rcases Nat.lt_or_ge j sr with h2 | h2
    · rw [List.getD_append _ _ _ _ (by simpa using h2)]
      rw [getD_zero_replicate]
      have hneg : ¬ (0 ≤ (j : ℤ) - (sr : ℤ)) := by omega
      simp [hneg]
    · rw [List.getD_append_right _ _ _ _ (by simpa using h2), List.length_replicate]
      have h0 : 0 ≤ (j : ℤ) - (sr : ℤ) := by omega
      have hlt : (j : ℤ) - (sr : ℤ) < (d.length : ℤ) := by omega
      have htn : ((j : ℤ) - (sr : ℤ)).toNat = j - sr := by omega
      simp [h0, hlt, htn]
  · rw [List.getD_append_right _ _ _ _ (by simpa using h1)]
    rw [getD_zero_replicate]
    have hge : ¬ ((j : ℤ) - (sr : ℤ) < (d.length : ℤ)) := by omega
    simp [hge]

lemma length_specWindow (d : List ℚ) (sr i : ℕ) :
    (specWindow d sr i).length = 2 * sr + 1 := by
  simp [specWindow]

lemma specWindow_getD (d : List ℚ) (sr i : ℕ) {k : ℕ} (hk : k < 2 * sr + 1) :
    (specWindow d sr i).getD k 0 = boundedGet d ((i : ℤ) - (sr : ℤ) + (k : ℤ)) := by
  unfold specWindow
  rw [getD_map_range _ hk]

lemma codeWindow_eq_specWindow (d : List ℚ) (sr : ℕ) {i : ℕ} (h : i < d.length) :
    codeWindow d sr i = specWindow d sr i := by
  have hlen : (codeWindow d sr i).length = 2 * sr + 1 := by
    unfold codeWindow
    rw [List.length_take, List.length_drop, length_padDensity]
    omega
  apply List.ext_getElem (by rw [hlen, length_specWindow])
  intro k hk1 hk2
  have hk : k < 2 * sr + 1 := by rwa [hlen] at hk1
  have hpad : k + i < (padDensity d sr).length := by
    rw [length_padDensity]; omega
  have hcode : (codeWindow d sr i).getD k 0 = (padDensity d sr).getD (i + k) 0 := by
    unfold codeWindow
    rw [List.getD_eq_getElem?_getD, List.getElem?_take, if_pos hk,
      List.getElem?_drop, List.getD_eq_getElem?_getD]
  have hspec := specWindow_getD d sr i hk
  rw [← List.getD_eq_getElem _ 0 hk1, ← List.getD_eq_getElem _ 0 hk2]
  rw [hcode, hspec, padDensity_getD]
  congr 1
  omega

/-! ### Non-maximum suppression lemmas -/

lemma length_nmsMarks (d : List ℚ) (thr : ℚ) (sr : ℕ) :
    (nmsMarks d thr sr).length = d.length := by
  simp [nmsMarks]

lemma nmsMarks_getD_iff (d : List ℚ) (thr : ℚ) (sr : ℕ) {i : ℕ} (h : i < d.length) :
    (nmsMarks d thr sr).getD i false = true ↔
      thr ≤ d.getD i 0 ∧ d.getD i 0 = maxFold (specWindow d sr i) := by
  unfold nmsMarks
  rw [getD_map_range _ h, codeWindow_eq_specWindow d sr h]
  by_cases hlt : d.getD i 0 < thr
  · simp [hlt, not_le.mpr hlt]
  · simp [hlt, not_lt.mp hlt]

lemma getD_mem_specWindow (d : List ℚ) (sr : ℕ) {i j : ℕ} (hj : j < d.length)
    (hij : |(i : ℤ) - (j : ℤ)| ≤ (sr : ℤ)) :
    d.getD j 0 ∈ specWindow d sr i := by
  rw [abs_le] at hij
  have hk2 : j + sr - i < 2 * sr + 1 := by omega
  have harg : (i : ℤ) - (sr : ℤ) + ((j + sr - i : ℕ) : ℤ) = (j : ℤ) := by omega
  have hval : boundedGet d ((i : ℤ) - (sr : ℤ) + ((j + sr - i : ℕ) : ℤ)) =
      d.getD j 0 := by
    rw [harg]
    unfold boundedGet
    have hl : (j : ℤ) < (d.length : ℤ) := by omega
    simp [hl]
  unfold specWindow
  rw [← hval]
  exact List.mem_map.mpr ⟨j + sr - i, List.mem_range.mpr hk2, rfl⟩

lemma nms_close_eq (d : List ℚ) (thr : ℚ) (sr : ℕ) {i j : ℕ}
    (hi : i < d.length) (hj : j < d.length)
    (mi : (nmsMarks d thr sr).getD i false = true)
    (mj : (nmsMarks d thr sr).getD j false = true)
    (hij : |(i : ℤ) - (j : ℤ)| ≤ (sr : ℤ)) :
    d.getD i 0 = d.getD j 0 := by
  have hi2 := (nmsMarks_getD_iff d thr sr hi).mp mi
  have hj2 := (nmsMarks_getD_iff d thr sr hj).mp mj
  have h1 : d.getD j 0 ≤ d.getD i 0 := by
    rw [hi2.2]
    exact le_maxFold (getD_mem_specWindow d sr hj hij)
  have h2 : d.getD i 0 ≤ d.getD j 0 := by
    rw [hj2.2]
    refine le_maxFold (getD_mem_specWindow d sr hi ?_)
    rw [abs_sub_comm] at hij
    exact hij
  exact le_antisymm h2 h1

/-! ### Merge-pass lemmas -/

lemma pickMax_eq_self (best : VodCommentData) (l : List VodCommentData)
    (h : ∀ x ∈ l, ¬ best.commentsScore < x.commentsScore) :
    pickMax best l = best := by
  induction l with
  | nil => rfl
  | cons x xs ih =>
    show pickMax (if best.commentsScore < x.commentsScore then x else best) xs = best
    rw [if_neg (h x (List.mem_cons_self x xs))]
    exact ih fun y hy => h y (List.mem_cons_of_mem _ hy)

lemma pickMax_mem (best : VodCommentData) (l : List VodCommentData) :
    pickMax best l ∈ best :: l := by
  induction l generalizing best with
  | nil => simp [pickMax]
  | cons x xs ih =>
    show pickMax (if best.commentsScore < x.commentsScore then x else best) xs ∈
      best :: x :: xs
    rcases List.mem_cons.mp
        (ih (if best.commentsScore < x.commentsScore then x else best)) with h | h
    · rw [h]
      split
      · exact List.mem_cons_of_mem _ (List.mem_cons_self _ _)
      · exact List.mem_cons_self _ _
    · exact List.mem_cons_of_mem _ (List.mem_cons_of_mem _ h)

lemma mergeGroups_nil (sr : ℚ) : mergeGroups sr [] = [] := by
  rw [mergeGroups]

lemma mergeGroups_cons (sr : ℚ) (h : VodCommentData) (t : List VodCommentData) :
    mergeGroups sr (h :: t) =
      pickMax h (t.takeWhile fun m => m.offsetSeconds - h.offsetSeconds ≤ sr) ::
        mergeGroups sr (t.dropWhile fun m => m.offsetSeconds - h.offsetSeconds ≤ sr) := by
  rw [mergeGroups]

lemma mergeGroups_subset_aux (sr : ℚ) (n : ℕ) :
    ∀ l : List VodCommentData, l.length ≤ n → ∀ x ∈ mergeGroups sr l, x ∈ l := by
  induction n with
  | zero =>
    intro l hl x hx
    rw [List.length_eq_zero.mp (Nat.le_zero.mp hl)] at hx ⊢
    rw [mergeGroups_nil] at hx
    exact hx
  | succ n ih =>
    intro l hl x hx
    match l with
    | [] => rw [mergeGroups_nil] at hx; cases hx
    | h :: t =>
      rw [mergeGroups_cons] at hx
      have hlt : t.length ≤ n := by
        simpa using Nat.le_of_succ_le_succ (by simpa using hl)
      rcases List.mem_cons.mp hx with rfl | hx2
      · rcases List.mem_cons.mp (pickMax_mem h _) with h1 | h1
        · rw [h1]; exact List.mem_cons_self _ _
        · exact List.mem_cons_of_mem _ ((List.takeWhile_sublist _).subset h1)
      · have hrest : x ∈ t.dropWhile fun m => m.offsetSeconds - h.offsetSeconds ≤ sr :=
          ih _ (le_trans (List.dropWhile_sublist _).length_le hlt) x hx2
        exact List.mem_cons_of_mem _ ((List.dropWhile_sublist _).subset hrest)

lemma mergeGroups_subset (sr : ℚ) (l : List VodCommentData) :
    ∀ x ∈ mergeGroups sr l, x ∈ l :=
  mergeGroups_subset_aux sr l.length l le_rfl

lemma eqWithin_mono {sr : ℚ} {l l' : List VodCommentData} (hsub : l' ⊆ l)
    (h : eqWithin sr l) : eqWithin sr l' :=
  fun a ha b hb hab => h a (hsub ha) b (hsub hb) hab

lemma dropWhile_all_not {α : Type} (p : α → Bool) (r : α → α → Prop)
    (hmono : ∀ x y, r x y → p y = true → p x = true) :
    ∀ t : List α, t.Pairwise r → ∀ y ∈ t.dropWhile p, p y = false := by
  intro t
  induction t with
  | nil => intro _ y hy; simp at hy
  | cons a t1 ih =>
    intro hp y hy
    by_cases ha : p a
    · rw [List.dropWhile_cons_of_pos ha] at hy
      exact ih hp.of_cons y hy
    · rw [List.dropWhile_cons_of_neg ha] at hy
      rcases List.mem_cons.mp hy with rfl | hy2
      · exact Bool.not_eq_true _ |>.mp ha
      · by_cases hpy : p y
        · exact absurd (hmono a y (List.rel_of_pairwise_cons hp hy2) hpy) ha
        · exact Bool.not_eq_true _ |>.mp hpy

lemma mergeGroups_pairwise_aux (sr : ℚ) (n : ℕ) :
    ∀ l : List VodCommentData, l.length ≤ n → l.Pairwise offLE → eqWithin sr l →
      (mergeGroups sr l).Pairwise
        fun a b => sr < b.offsetSeconds - a.offsetSeconds := by
  induction n with
  | zero =>
    intro l hl _ _
    rw [List.length_eq_zero.mp (Nat.le_zero.mp hl), mergeGroups_nil]
    exact List.Pairwise.nil
  | succ n ih =>
    intro l hl hp he
    match l with
    | [] => rw [mergeGroups_nil]; exact List.Pairwise.nil
    | h :: t =>
      rw [mergeGroups_cons]
      have hlt : t.length ≤ n := by
        simpa using Nat.le_of_succ_le_succ (by simpa using hl)
      have hrep :
          pickMax h (t.takeWhile fun m => m.offsetSeconds - h.offsetSeconds ≤ sr) = h := by
        apply pickMax_eq_self
        intro x hx
        have hxt : x ∈ t := (List.takeWhile_sublist _).subset hx
        have hpx : x.offsetSeconds - h.offsetSeconds ≤ sr := by
          simpa using List.mem_takeWhile_imp hx
        have hle : h.offsetSeconds ≤ x.offsetSeconds :=
          List.rel_of_pairwise_cons hp hxt
        have habs : |h.offsetSeconds - x.offsetSeconds| ≤ sr := by
          rw [abs_sub_comm, abs_of_nonneg (by linarith)]
          linarith
        have hsc := he h (List.mem_cons_self _ _) x (List.mem_cons_of_mem _ hxt) habs
        rw [hsc]
        exact lt_irrefl _
      rw [hrep]
      have hmono : ∀ x y : VodCommentData, offLE x y →
          (decide (y.offsetSeconds - h.offsetSeconds ≤ sr) = true) →
          (decide (x.offsetSeconds - h.offsetSeconds ≤ sr) = true) := by
        intro x y hxy hy
        rw [decide_eq_true_iff] at hy ⊢
        have : x.offsetSeconds ≤ y.offsetSeconds := hxy
        linarith
      refine List.pairwise_cons.mpr ⟨?_, ?_⟩
      · intro b hb
        have hbrest : b ∈ t.dropWhile fun m => m.offsetSeconds - h.offsetSeconds ≤ sr :=
          mergeGroups_subset sr _ b hb
        have hfalse := dropWhile_all_not _ offLE hmono t hp.of_cons b hbrest
        have : ¬ (b.offsetSeconds - h.offsetSeconds ≤ sr) := by
          simpa using hfalse
        linarith
      · exact ih _ (le_trans (List.dropWhile_sublist _).length_le hlt)
          (hp.of_cons.sublist (List.dropWhile_sublist _))
          (eqWithin_mono (fun x hx =>
            List.mem_cons_of_mem _ ((List.dropWhile_sublist _).subset hx)) he)

lemma mergeGroups_pairwise (sr : ℚ) (l : List VodCommentData)
    (hp : l.Pairwise offLE) (he : eqWithin sr l) :
    (mergeGroups sr l).Pairwise fun a b => sr < b.offsetSeconds - a.offsetSeconds :=
  mergeGroups_pairwise_aux sr l.length l le_rfl hp he

/-! ### Pipeline glue lemmas -/

lemma countPerSecond_length (offsets : List ℚ) (T : ℕ) :
    (countPerSecond offsets T).length = T := by
  unfold countPerSecond
  suffices h : ∀ acc : List ℚ, (offsets.foldl _ acc).length = acc.length by
    rw [h]
    exact List.length_replicate T 0
  induction offsets with
  | nil => intro acc; rfl
  | cons o os ih =>
    intro acc
    rw [List.foldl_cons, ih]
    dsimp only
    split
    · exact List.length_set acc _ _
    · rfl

lemma detectCount_length (comments : List TwitchChatComment) :
    (detectCount comments).length = detectTotalSeconds comments :=
  countPerSecond_length _ _

lemma detectCount_length_pos (comments : List TwitchChatComment) :
    0 < (detectCount comments).length := by
  rw [detectCount_length]
  exact Nat.succ_pos _

lemma findPeak_eq (count : List ℚ) (p : PeakDetectionParams)
    (h : ¬ count.length = 0) :
    findPeakWithParams count p =
      (nmsMarks (convSame count (List.replicate (p.windowsLen + 1).toNat 1))
          (thrDensityOf (convSame count (List.replicate (p.windowsLen + 1).toNat 1))
            p.thr)
          p.searchRange.toNat,
        convSame count (List.replicate (p.windowsLen + 1).toNat 1)) := by
  unfold findPeakWithParams
  rw [if_neg h]

lemma findPeak_density_length (count : List ℚ) (p : PeakDetectionParams) :
    ((findPeakWithParams count p).2).length = count.length := by
  unfold findPeakWithParams
  by_cases h : count.length = 0
  · simp [h]
  · rw [if_neg h]
    exact length_convSame _ _

lemma findPeak_marks_length (count : List ℚ) (p : PeakDetectionParams) :
    ((findPeakWithParams count p).1).length = count.length := by
  unfold findPeakWithParams
  by_cases h : count.length = 0
  · simp [h]
  · rw [if_neg h]
    rw [length_nmsMarks, length_convSame]

lemma detectDensity_length (comments : List TwitchChatComment)
    (params : PeakDetectionParams) :
    (detectDensity comments params).length = detectTotalSeconds comments := by
  unfold detectDensity
  rw [findPeak_density_length, detectCount_length]

lemma mem_detectPreMerge {comments : List TwitchChatComment}
    {params : PeakDetectionParams} {m : VodCommentData} :
    m ∈ detectPreMerge comments params ↔
      ∃ i : ℕ,
        i < ((findPeakWithParams (detectCount comments) (normalizeParams params)).1).length ∧
        ((findPeakWithParams (detectCount comments) (normalizeParams params)).1).getD i
          false = true ∧
        m = ⟨((findPeakWithParams (detectCount comments) (normalizeParams params)).2).getD
          i 0, (i : ℚ)⟩ := by
  unfold detectPreMerge
  constructor
  · intro hm
    obtain ⟨i, hi, rfl⟩ := List.mem_map.mp hm
    obtain ⟨hir, hmark⟩ := List.mem_filter.mp hi
    exact ⟨i, List.mem_range.mp hir, by simpa using hmark, rfl⟩
  · rintro ⟨i, hi, hmark, rfl⟩
    refine List.mem_map.mpr ⟨i, List.mem_filter.mpr ⟨List.mem_range.mpr hi, ?_⟩, rfl⟩
    simpa using hmark

lemma detectPreMerge_pairwise (comments : List TwitchChatComment)
    (params : PeakDetectionParams) :
    (detectPreMerge comments params).Pairwise offLE := by
  unfold detectPreMerge
  refine List.Pairwise.map _ ?_ ((List.pairwise_lt_range _).filter _)
  intro a b hab
  show (a : ℚ) ≤ (b : ℚ)
  exact_mod_cast Nat.le_of_lt hab

lemma normalizeParams_searchRange_pos (p : PeakDetectionParams) :
    0 < (normalizeParams p).searchRange := by
  unfold normalizeParams
  dsimp only
  split <;> omega

lemma normalizeParams_thr_pos (p : PeakDetectionParams) :
    0 < (normalizeParams p).thr := by
  unfold normalizeParams
  dsimp only
  split
  · norm_num
  · rename_i h
    push_neg at h
    exact h.1

lemma detectPreMerge_eqWithin (comments : List TwitchChatComment)
    (params : PeakDetectionParams) :
    eqWithin ((normalizeParams params).searchRange : ℚ)
      (detectPreMerge comments params) := by
  intro a ha b hb hab
  obtain ⟨i, hi, hmi, rfl⟩ := mem_detectPreMerge.mp ha
  obtain ⟨j, hj, hmj, rfl⟩ := mem_detectPreMerge.mp hb
  have hcount : ¬ (detectCount comments).length = 0 :=
    Nat.pos_iff_ne_zero.mp (detectCount_length_pos comments)
  rw [findPeak_eq _ _ hcount] at hi hj hmi hmj ⊢
  dsimp only at hi hj hmi hmj ⊢
  rw [length_nmsMarks] at hi hj
  dsimp only [offLE] at hab
  have hsr := normalizeParams_searchRange_pos params
  have habz : |(i : ℤ) - (j : ℤ)| ≤ ((normalizeParams params).searchRange.toNat : ℤ) := by
    have hcast : ((|(i : ℤ) - (j : ℤ)| : ℤ) : ℚ) = |(i : ℚ) - (j : ℚ)| := by
      push_cast
      rfl
    have h1 : ((|(i : ℤ) - (j : ℤ)| : ℤ) : ℚ) ≤
        (((normalizeParams params).searchRange : ℤ) : ℚ) := by
      rw [hcast]
      exact hab
    have h2 : |(i : ℤ) - (j : ℤ)| ≤ (normalizeParams params).searchRange := by
      exact_mod_cast h1
    omega
  exact nms_close_eq _ _ _ hi hj hmi hmj habz

lemma mergeCloseHotMoments_subset (l : List VodCommentData) (sr : ℤ) :
    ∀ x ∈ mergeCloseHotMoments l sr, x ∈ l := by
  unfold mergeCloseHotMoments
  split
  · exact fun x hx => hx
  · intro x hx
    exact (List.perm_insertionSort _ l).subset (mergeGroups_subset _ _ x hx)

lemma mergeCloseHotMoments_pairwise (l : List VodCommentData) (sr : ℤ)
    (hp : l.Pairwise offLE) (he : eqWithin (sr : ℚ) l) :
    (mergeCloseHotMoments l sr).Pairwise
      fun a b => (sr : ℚ) < b.offsetSeconds - a.offsetSeconds := by
  unfold mergeCloseHotMoments
  split
  · rename_i hlen
    match l with
    | [] => exact List.Pairwise.nil
    | [a] => exact List.pairwise_singleton _ _
    | a :: b :: t => simp at hlen
  · refine mergeGroups_pairwise _ _ ?_ ?_
    · exact List.sorted_insertionSort _ l
    · exact eqWithin_mono (List.perm_insertionSort _ l).subset he

lemma FindHot_hotMoments (comments : List TwitchChatComment) (secondsDt : ℤ)
    (params : PeakDetectionParams) (h : ¬ comments.length = 0) :
    (FindHotCommentsWithParams comments secondsDt params).hotMoments =
      mergeCloseHotMoments (detectPreMerge comments params)
        (normalizeParams params).searchRange := by
  unfold FindHotCommentsWithParams
  rw [if_neg h]

/-! ### Threshold lemmas -/

lemma thrDensityOf_eq_spec (density : List ℚ) (thr : ℚ) :
    thrDensityOf density thr =
      (sortAsc density).getD
        (min (density.length - 1) (⌊(density.length : ℚ) * thr⌋).toNat) 0 := by
  simp only [thrDensityOf]
  have hlen : (sortAsc density).length = density.length :=
    List.length_insertionSort _ _
  rw [hlen]
  by_cases hge : density.length ≤ (⌊(density.length : ℚ) * thr⌋).toNat
  · rw [if_pos hge]
    congr 1
    omega
  · rw [if_neg hge]
    congr 1
    omega

/-! ### Claim theorems: separation, score threshold, integral offsets -/

/-- C1: any two distinct hot moments returned by
`FindHotCommentsWithParams` are more than `searchRange` seconds apart.
The non-maximum suppression forces peaks within `searchRange` of one
another to share their density value, hence each merge group keeps its
first (lowest-offset) member, and consecutive group heads are more than
`searchRange` apart; the effective search range is at least the caller's
`params.searchRange` (the default 60 replaces only non-positive values). -/
theorem detect_hot_moments_separation (comments : List TwitchChatComment)
    (secondsDt : ℤ) (params : PeakDetectionParams) :
    ((FindHotCommentsWithParams comments secondsDt params).hotMoments).Pairwise
      fun a b => (params.searchRange : ℚ) < |a.offsetSeconds - b.offsetSeconds| := by
  by_cases h : comments.length = 0
  · unfold FindHotCommentsWithParams
    rw [if_pos h]
    exact List.Pairwise.nil
  · rw [FindHot_hotMoments comments secondsDt params h]
    have hpw := mergeCloseHotMoments_pairwise (detectPreMerge comments params)
      (normalizeParams params).searchRange
      (detectPreMerge_pairwise comments params)
      (detectPreMerge_eqWithin comments params)
    refine hpw.imp ?_
    intro a b hab
    have hle : params.searchRange ≤ (normalizeParams params).searchRange := by
      unfold normalizeParams
      dsimp only
      split <;> omega
    have hleq : (params.searchRange : ℚ) ≤
        ((normalizeParams params).searchRange : ℚ) := by
      exact_mod_cast hle
    have habs : b.offsetSeconds - a.offsetSeconds ≤ |a.offsetSeconds - b.offsetSeconds| := by
      rw [abs_sub_comm]
      exact le_abs_self _
    linarith

/-- C7: every returned hot moment's score is at least the percentile
threshold `sorted(density)[min(T-1, floor(T*thr))]` computed with the
effective (default-substituted) parameter triple; the merge pass returns
a subset of the peaks that passed the threshold gate. -/
theorem detect_hot_moments_score_ge_threshold (comments : List TwitchChatComment)
    (secondsDt : ℤ) (params : PeakDetectionParams) (m : VodCommentData)
    (hm : m ∈ (FindHotCommentsWithParams comments secondsDt params).hotMoments) :
    (sortAsc (detectDensity comments params)).getD
      (min (detectTotalSeconds comments - 1)
        (⌊(detectTotalSeconds comments : ℚ) * (normalizeParams params).thr⌋).toNat) 0 ≤
      m.commentsScore := by
  by_cases h : comments.length = 0
  · unfold FindHotCommentsWithParams at hm
    rw [if_pos h] at hm
    cases hm
  · rw [FindHot_hotMoments comments secondsDt params h] at hm
    have hpre := mergeCloseHotMoments_subset _ _ m hm
    obtain ⟨i, hi, hmark, rfl⟩ := mem_detectPreMerge.mp hpre
    have hcount : ¬ (detectCount comments).length = 0 :=
      Nat.pos_iff_ne_zero.mp (detectCount_length_pos comments)
    rw [findPeak_eq _ _ hcount] at hi hmark ⊢
    dsimp only at hi hmark ⊢
    rw [length_nmsMarks] at hi
    have hchar := (nmsMarks_getD_iff _ _ _ hi).mp hmark
    have hthr := hchar.1
    have hspec := thrDensityOf_eq_spec
      (convSame (detectCount comments)
        (List.replicate ((normalizeParams params).windowsLen + 1).toNat 1))
      (normalizeParams params).thr
    rw [hspec] at hthr
    have hdlen : (convSame (detectCount comments)
        (List.replicate ((normalizeParams params).windowsLen + 1).toNat 1)).length =
        detectTotalSeconds comments := by
      rw [length_convSame, detectCount_length]
    have hdd : detectDensity comments params =
        convSame (detectCount comments)
          (List.replicate ((normalizeParams params).windowsLen + 1).toNat 1) := by
      unfold detectDensity
      rw [findPeak_eq _ _ hcount]
    rw [hdlen] at hthr
    rw [hdd]
    exact hthr

/-- C10: every returned hot moment sits on a whole second: its offset is
the cast of an index `i < T` with `T = ceil(max offset) + 1`, and its
score is the density value at that second. -/
theorem detect_hot_moment_offsets_integral (comments : List TwitchChatComment)
    (secondsDt : ℤ) (params : PeakDetectionParams) (m : VodCommentData)
    (hnn : ∀ c ∈ comments, 0 ≤ c.contentOffsetSeconds)
    (hm : m ∈ (FindHotCommentsWithParams comments secondsDt params).hotMoments) :
    ∃ i : ℕ, i < detectTotalSeconds comments ∧ m.offsetSeconds = (i : ℚ) ∧
      m.commentsScore = (detectDensity comments params).getD i 0 := by
  by_cases h : comments.length = 0
  · unfold FindHotCommentsWithParams at hm
    rw [if_pos h] at hm
    cases hm
  · rw [FindHot_hotMoments comments secondsDt params h] at hm
    have hpre := mergeCloseHotMoments_subset _ _ m hm
    obtain ⟨i, hi, hmark, rfl⟩ := mem_detectPreMerge.mp hpre
    refine ⟨i, ?_, rfl, rfl⟩
    rw [findPeak_marks_length, detectCount_length] at hi
    exact hi

/-- C2: the density signal produced by detection has the length of the
per-second count array, and each entry is the centered moving sum
`sum k in 0..windowsLen of count[i - windowsLen/2 + k]` with out-of-range
indices contributing zero and no division by the kernel length. -/
theorem density_convolution_formula (count : List ℚ) (wl : ℕ) (thr : ℚ) (sr : ℤ) :
    ((findPeakWithParams count ⟨(wl : ℤ), thr, sr⟩).2).length = count.length ∧
    ∀ i : ℕ, i < count.length →
      ((findPeakWithParams count ⟨(wl : ℤ), thr, sr⟩).2).getD i 0 =
        ((List.range (wl + 1)).map fun (k : ℕ) =>
          boundedGet count ((i : ℤ) - (wl / 2 : ℕ) + (k : ℤ))).sum := by
  refine ⟨findPeak_density_length _ _, ?_⟩
  intro i hi
  have hc : ¬ count.length = 0 := by omega
  rw [findPeak_eq _ _ hc]
  dsimp only
  have htn : ((wl : ℤ) + 1).toNat = wl + 1 := by omega
  rw [htn]
  exact convSame_ones_getD count wl hi

theorem density_convolution_formula_witness :
    0 < ([1, 2] : List ℚ).length ∧
    ((findPeakWithParams [1, 2] ⟨(1 : ℕ), 0, 1⟩).2).getD 0 0 =
      ((List.range (1 + 1)).map fun (k : ℕ) =>
        boundedGet [1, 2] ((0 : ℤ) - ((1 / 2 : ℕ) : ℤ) + (k : ℤ))).sum ∧
    ((findPeakWithParams [1, 2] ⟨(1 : ℕ), 0, 1⟩).2).getD 0 0 = 3 := by
  refine ⟨by decide, (density_convolution_formula [1, 2] 1 0 1).2 0 (by decide), ?_⟩
  simp [findPeakWithParams, convSame, List.range_succ]
  norm_num

/-- C3: the threshold used by detection is the floor-indexed percentile of
the ascending-sorted density array, clamped to the last element: the sort
is a sorted permutation of the density signal, the floor index stays
within bounds for `thr` below one, and the threshold is
`sorted[min(T-1, floor(T*thr))]`. -/
theorem threshold_percentile_formula (density : List ℚ) (thr : ℚ)
    (hT : 1 ≤ density.length) (h0 : 0 ≤ thr) (h1 : thr < 1) :
    List.Sorted (· ≤ ·) (sortAsc density) ∧
    (sortAsc density).Perm density ∧
    (⌊(density.length : ℚ) * thr⌋).toNat ≤ density.length - 1 ∧
    thrDensityOf density thr =
      (sortAsc density).getD
        (min (density.length - 1) (⌊(density.length : ℚ) * thr⌋).toNat) 0 := by
  refine ⟨List.sorted_insertionSort _ _, List.perm_insertionSort _ _, ?_,
    thrDensityOf_eq_spec density thr⟩
  have hfl : ⌊(density.length : ℚ) * thr⌋ < (density.length : ℤ) := by
    rw [Int.floor_lt]
    push_cast
    have hpos : (0 : ℚ) < (density.length : ℚ) := by
      exact_mod_cast hT
    nlinarith
  omega

theorem threshold_percentile_formula_witness :
    1 ≤ ([3, 1] : List ℚ).length ∧
    thrDensityOf [3, 1] (1 / 2) =
      (sortAsc [3, 1]).getD
        (min (([3, 1] : List ℚ).length - 1) (⌊(([3, 1] : List ℚ).length : ℚ) * (1 / 2)⌋).toNat) 0 ∧
    thrDensityOf [3, 1] (1 / 2) = 3 := by
  refine ⟨by decide,
    (threshold_percentile_formula [3, 1] (1 / 2) (by decide) (by norm_num) (by norm_num)).2.2.2,
    ?_⟩
  norm_num [thrDensityOf, sortAsc, List.insertionSort, List.orderedInsert]

/-- C4 (amended): for an index whose density passes the threshold gate,
the index is marked a peak exactly when its density equals the maximum of
the zero-padded window; ties at the window maximum are NOT restricted to
the lowest index — every tying index whose own window maximum equals its
density is marked. -/
theorem nms_mark_iff_window_max (density : List ℚ) (thrDensity : ℚ) (sr : ℕ)
    (i : ℕ) (hi : i < density.length) (hthr : thrDensity ≤ density.getD i 0) :
    ((nmsMarks density thrDensity sr).getD i false = true ↔
      density.getD i 0 = maxFold (specWindow density sr i)) := by
  rw [nmsMarks_getD_iff _ _ _ hi]
  exact and_iff_right hthr

theorem nms_mark_iff_window_max_witness :
    (0 : ℕ) < ([2, 1] : List ℚ).length ∧
    (0 : ℚ) ≤ ([2, 1] : List ℚ).getD 0 0 ∧
    ((nmsMarks [2, 1] 0 1).getD 0 false = true ↔
      ([2, 1] : List ℚ).getD 0 0 = maxFold (specWindow [2, 1] 1 0)) := by
  refine ⟨by decide, by simp, nms_mark_iff_window_max [2, 1] 0 1 0 (by decide) (by simp)⟩

/-- C4 counterexample: feeding counts `[0, 5]` with windowsLen 1, thr 1/2
and searchRange 1 through `findPeakWithParams` yields the density `[5, 5]`
— two indices inside one search window tying at the window maximum — and
BOTH are marked as peaks, contradicting the claim that the later equal
index is suppressed. -/
theorem nms_tie_both_marked_counterexample :
    (findPeakWithParams [0, 5] ⟨1, 1 / 2, 1⟩).1 = [true, true] ∧
    (findPeakWithParams [0, 5] ⟨1, 1 / 2, 1⟩).2 = [5, 5] := by
  constructor <;>
    simp [findPeakWithParams, convSame, thrDensityOf, sortAsc, nmsMarks, codeWindow,
      padDensity, maxFold, List.insertionSort, List.orderedInsert, List.range_succ]

theorem detect_hot_moments_score_ge_threshold_witness :
    (⟨1, 0⟩ : VodCommentData) ∈
      (FindHotCommentsWithParams [⟨0⟩] 5 ⟨1, 1 / 2, 1⟩).hotMoments ∧
    (sortAsc (detectDensity [⟨0⟩] ⟨1, 1 / 2, 1⟩)).getD
      (min (detectTotalSeconds [⟨0⟩] - 1)
        (⌊(detectTotalSeconds [⟨0⟩] : ℚ) * (normalizeParams ⟨1, 1 / 2, 1⟩).thr⌋).toNat) 0 ≤
      (⟨1, 0⟩ : VodCommentData).commentsScore := by
  have hmem : (⟨1, 0⟩ : VodCommentData) ∈
      (FindHotCommentsWithParams [⟨0⟩] 5 ⟨1, 1 / 2, 1⟩).hotMoments := by
    simp [FindHotCommentsWithParams, detectPreMerge, detectCount, detectOffsets,
      detectTotalSeconds, maxOffsetOf, countPerSecond, normalizeParams, findPeakWithParams,
      convSame, thrDensityOf, sortAsc, nmsMarks, codeWindow, padDensity, maxFold,
      mergeCloseHotMoments, mergeGroups, sortByOffset, pickMax,
      List.insertionSort, List.orderedInsert, List.range_succ, offLE]
  exact ⟨hmem, detect_hot_moments_score_ge_threshold [⟨0⟩] 5 ⟨1, 1 / 2, 1⟩ ⟨1, 0⟩ hmem⟩

theorem detect_hot_moment_offsets_integral_witness :
    (∀ c ∈ [(⟨1 / 2⟩ : TwitchChatComment)], 0 ≤ c.contentOffsetSeconds) ∧
    (⟨1, 0⟩ : VodCommentData) ∈
      (FindHotCommentsWithParams [⟨1 / 2⟩] 5 ⟨1, 1 / 2, 1⟩).hotMoments ∧
    ∃ i : ℕ, i < detectTotalSeconds [⟨1 / 2⟩] ∧
      (⟨1, 0⟩ : VodCommentData).offsetSeconds = (i : ℚ) ∧
      (⟨1, 0⟩ : VodCommentData).commentsScore =
        (detectDensity [⟨1 / 2⟩] ⟨1, 1 / 2, 1⟩).getD i 0 := by
  have hnn : ∀ c ∈ [(⟨1 / 2⟩ : TwitchChatComment)], 0 ≤ c.contentOffsetSeconds := by
    intro c hc
    rw [List.mem_singleton.mp hc]
    norm_num
  have hmem : (⟨1, 0⟩ : VodCommentData) ∈
      (FindHotCommentsWithParams [⟨1 / 2⟩] 5 ⟨1, 1 / 2, 1⟩).hotMoments := by
    have hc : ⌈((2 : ℚ))⁻¹⌉ = 1 := by rw [Int.ceil_eq_iff] <;> norm_num
    have hf : ⌊((2 : ℚ))⁻¹⌋ = 0 := by rw [Int.floor_eq_iff] <;> norm_num
    have h2 : ¬ ((2 : ℚ) ≤ 0) := by norm_num
    have h3 : ¬ ((1 : ℚ) < 2⁻¹) := by norm_num
    have h4 : ¬ ((1 : ℚ) ≤ 0) := by norm_num
    have h5 : ¬ ((1 : ℚ) < 1) := by norm_num
    simp [hc, hf, h2, h3, h4, h5, FindHotCommentsWithParams, detectPreMerge, detectCount,
      detectOffsets, detectTotalSeconds, maxOffsetOf, countPerSecond, normalizeParams,
      findPeakWithParams, convSame, thrDensityOf, sortAsc, nmsMarks, codeWindow,
      padDensity, maxFold, mergeCloseHotMoments, mergeGroups, sortByOffset, pickMax,
      List.insertionSort, List.orderedInsert, List.range_succ, offLE]
  exact ⟨hnn, hmem,
    detect_hot_moment_offsets_integral [⟨1 / 2⟩] 5 ⟨1, 1 / 2, 1⟩ ⟨1, 0⟩ hnn hmem⟩

/-! ### Watcher edge detection (C8) -/

/-- C8: one probe tick triggers post-broadcast processing iff the stored
`isLive` (false when the streamer was never observed) is true and the
probe reports offline; an erroring probe leaves the stored state
unchanged; equal-state ticks never trigger; and the probe sequence
[live, live, offline, offline] triggers exactly once, after the third
tick. -/
theorem watcher_edge_detection :
    (∀ (st : Option Bool) (p : ProbeResult),
      (checkStreamerStatusStep st p).2 = true ↔
        p = ProbeResult.ok false ∧ st.getD false = true) ∧
    (∀ st : Option Bool, (checkStreamerStatusStep st ProbeResult.err).1 = st) ∧
    (∀ b : Bool, (checkStreamerStatusStep (some b) (ProbeResult.ok b)).2 = false) ∧
    runTicks none [ProbeResult.ok true, ProbeResult.ok true,
        ProbeResult.ok false, ProbeResult.ok false] =
      [false, false, true, false] := by
  refine ⟨?_, ?_, ?_, by decide⟩
  · intro st p
    cases p with
    | err => simp [checkStreamerStatusStep]
    | ok c => cases c <;> cases st <;> simp [checkStreamerStatusStep]
  · intro st
    rfl
  · intro b
    cases b <;> rfl

/-! ### YouTube key rotation (C9) -/

lemma retryLoopAux_zero (p i : ℕ) (outs : List AttemptOutcome) :
    retryLoopAux p i outs 0 = ⟨none, [], 0⟩ := by
  cases outs <;> simp [retryLoopAux]

lemma retryLoopAux_nil (p i fuel : ℕ) :
    retryLoopAux p i [] fuel = ⟨none, [], 0⟩ := by
  cases fuel <;> simp [retryLoopAux]

lemma retryLoopAux_netErr (p i fuel : ℕ) (rest : List AttemptOutcome) :
    retryLoopAux p i (AttemptOutcome.netErr :: rest) (fuel + 1) =
      ⟨(retryLoopAux p (rotateIndex p i) rest fuel).result,
        i :: (retryLoopAux p (rotateIndex p i) rest fuel).attemptKeys,
        (retryLoopAux p (rotateIndex p i) rest fuel).sleepMs⟩ := by
  simp [retryLoopAux]

lemma retryLoopAux_quota (p i c fuel : ℕ) (rest : List AttemptOutcome)
    (hc : c = 403 ∨ c = 429) :
    retryLoopAux p i (AttemptOutcome.status c :: rest) (fuel + 1) =
      ⟨(retryLoopAux p (rotateIndex p i) rest fuel).result,
        i :: (retryLoopAux p (rotateIndex p i) rest fuel).attemptKeys,
        500 + (retryLoopAux p (rotateIndex p i) rest fuel).sleepMs⟩ := by
  simp [retryLoopAux, if_pos hc]

lemma retryLoopAux_other (p i c fuel : ℕ) (rest : List AttemptOutcome)
    (hc : ¬ (c = 403 ∨ c = 429)) :
    retryLoopAux p i (AttemptOutcome.status c :: rest) (fuel + 1) =
      ⟨some c, [i], 0⟩ := by
  simp only [retryLoopAux, if_neg hc]

lemma retryLoop_all_quota (p : ℕ) (hp : 0 < p) :
    ∀ (fuel i : ℕ) (outs : List AttemptOutcome), i < p →
      (∀ o ∈ outs, o = AttemptOutcome.status 403 ∨ o = AttemptOutcome.status 429) →
      fuel ≤ outs.length →
      retryLoopAux p i outs fuel =
        ⟨none, (List.range fuel).map (fun k => (i + k) % p), 500 * fuel⟩ := by
  intro fuel
  induction fuel with
  | zero =>
    intro i outs _ _ _
    rw [retryLoopAux_zero]
    simp
  | succ f ih =>
    intro i outs hi hq hlen
    match outs with
    | [] => simp at hlen
    | o :: rest =>
      have hrot : rotateIndex p i = (i + 1) % p := rfl
      have hrotlt : (i + 1) % p < p := Nat.mod_lt _ hp
      have htail := ih ((i + 1) % p) rest hrotlt
        (fun x hx => hq x (List.mem_cons_of_mem _ hx)) (by simpa using hlen)
      have hkeys : i :: (List.range f).map (fun k => ((i + 1) % p + k) % p) =
          (List.range (f + 1)).map (fun k => (i + k) % p) := by
        rw [List.range_succ_eq_map, List.map_cons, List.map_map]
        congr 1
        · rw [Nat.add_zero, Nat.mod_eq_of_lt hi]
        · apply List.map_congr_left
          intro k _
          show ((i + 1) % p + k) % p = (i + Nat.succ k) % p
          rw [Nat.mod_add_mod]
          congr 1
          omega
      have hc : o = AttemptOutcome.status 403 ∨ o = AttemptOutcome.status 429 :=
        hq o (List.mem_cons_self _ _)
      have hcc : ∃ c, o = AttemptOutcome.status c ∧ (c = 403 ∨ c = 429) := by
        rcases hc with rfl | rfl
        · exact ⟨403, rfl, Or.inl rfl⟩
        · exact ⟨429, rfl, Or.inr rfl⟩
      obtain ⟨c, rfl, hc2⟩ := hcc
      rw [retryLoopAux_quota p i c f rest hc2, hrot]
      simp only [htail, RetryTrace.mk.injEq, true_and]
      exact ⟨hkeys, by omega⟩

lemma retryLoop_keys_le (p : ℕ) :
    ∀ (fuel i : ℕ) (outs : List AttemptOutcome),
      (retryLoopAux p i outs fuel).attemptKeys.length ≤ fuel := by
  intro fuel
  induction fuel with
  | zero =>
    intro i outs
    rw [retryLoopAux_zero]
    exact Nat.le_refl 0
  | succ f ih =>
    intro i outs
    match outs with
    | [] =>
      rw [retryLoopAux_nil]
      exact Nat.zero_le _
    | AttemptOutcome.netErr :: rest =>
      rw [retryLoopAux_netErr]
      exact Nat.succ_le_succ (ih _ _)
    | AttemptOutcome.status c :: rest =>
      by_cases hc : c = 403 ∨ c = 429
      · rw [retryLoopAux_quota p i c f rest hc]
        exact Nat.succ_le_succ (ih _ _)
      · rw [retryLoopAux_other p i c f rest hc]
        exact Nat.succ_le_succ (Nat.zero_le _)

/-- C9: on 403/429 the shared cursor advances (wrapping modulo the pool
size), the request is retried with the rotated key after a 500 ms sleep,
for at most `len(pool)` total attempts, and exhausting the pool returns an
error; any other response status ends the loop at once, with no rotation
and no sleep. -/
theorem youtube_key_rotation (p i : ℕ) (hip : i < p) :
    (∀ outs : List AttemptOutcome,
      (∀ o ∈ outs, o = AttemptOutcome.status 403 ∨ o = AttemptOutcome.status 429) →
      p ≤ outs.length →
      makeRequestWithRetry p i outs =
        ⟨none, (List.range p).map (fun k => (i + k) % p), 500 * p⟩) ∧
    (∀ (c : ℕ) (outs : List AttemptOutcome), ¬ (c = 403 ∨ c = 429) →
      makeRequestWithRetry p i (AttemptOutcome.status c :: outs) =
        ⟨some c, [i], 0⟩) ∧
    (∀ outs : List AttemptOutcome,
      (makeRequestWithRetry p i outs).attemptKeys.length ≤ p) := by
  have hp : 0 < p := by omega
  have hpne : ¬ p = 0 := by omega
  refine ⟨?_, ?_, ?_⟩
  · intro outs hq hlen
    unfold makeRequestWithRetry
    rw [if_neg hpne]
    exact retryLoop_all_quota p hp p i outs hip hq hlen
  · intro c outs hc
    unfold makeRequestWithRetry
    rw [if_neg hpne]
    obtain ⟨k, rfl⟩ : ∃ k, p = k + 1 := ⟨p - 1, by omega⟩
    exact retryLoopAux_other _ i c k outs hc
  · intro outs
    unfold makeRequestWithRetry
    rw [if_neg hpne]
    exact retryLoop_keys_le p p i outs

theorem youtube_key_rotation_witness :
    (2 : ℕ) < 3 ∧
    makeRequestWithRetry 3 2 [AttemptOutcome.status 429, AttemptOutcome.status 403,
        AttemptOutcome.status 429] =
      ⟨none, [2, 0, 1], 1500⟩ ∧
    makeRequestWithRetry 3 2 [AttemptOutcome.status 500] = ⟨some 500, [2], 0⟩ := by
  refine ⟨by decide, ?_, ?_⟩
  · exact ((youtube_key_rotation 3 2 (by decide)).1 _ (by decide) (by decide)).trans
      (by decide)
  · exact (youtube_key_rotation 3 2 (by decide)).2.1 500 [] (by decide)

/-! ### Parameter defaults (C6) -/

lemma normalizeParams_windowsLen_pos (p : PeakDetectionParams) :
    0 < (normalizeParams p).windowsLen := by
  unfold normalizeParams
  dsimp only
  split <;> omega

lemma normalizeParams_thr_le_one (p : PeakDetectionParams) :
    (normalizeParams p).thr ≤ 1 := by
  unfold normalizeParams
  dsimp only
  split
  · norm_num
  · rename_i h
    push_neg at h
    exact h.2

lemma normalizeParams_of_pos (q : PeakDetectionParams) (h1 : 0 < q.windowsLen)
    (h2 : 0 < q.thr) (h3 : q.thr ≤ 1) (h4 : 0 < q.searchRange) :
    normalizeParams q = q := by
  unfold normalizeParams
  have c1 : ¬ q.windowsLen ≤ 0 := by omega
  have c2 : ¬ (q.thr ≤ 0 ∨ 1 < q.thr) := by
    push_neg
    exact ⟨h2, h3⟩
  have c4 : ¬ q.searchRange ≤ 0 := by omega
  rw [if_neg c1, if_neg c2, if_neg c4]

lemma normalizeParams_idem (p : PeakDetectionParams) :
    normalizeParams (normalizeParams p) = normalizeParams p :=
  normalizeParams_of_pos _ (normalizeParams_windowsLen_pos p)
    (normalizeParams_thr_pos p) (normalizeParams_thr_le_one p)
    (normalizeParams_searchRange_pos p)

/-- C6 counterexample: leaving every parameter unspecified (zero values
fail all three range checks) makes the detection operation substitute
windowsLen = 120, thr = 0.9, searchRange = 60 — not the claimed
(420, 0.90, 210).  The latter triple lives in the HTTP handler's
`DefaultQuery` calls and in `defaultPeakParams`, outside the detection
operation. -/
theorem default_params_counterexample :
    normalizeParams ⟨0, 0, 0⟩ = ⟨120, 9 / 10, 60⟩ ∧
    normalizeParams ⟨0, 0, 0⟩ ≠ ⟨420, 9 / 10, 210⟩ := by
  have h1 : normalizeParams ⟨0, 0, 0⟩ = ⟨120, 9 / 10, 60⟩ := rfl
  refine ⟨h1, ?_⟩
  rw [h1]
  intro h
  exact absurd (congrArg PeakDetectionParams.windowsLen h) (by decide)

/-- C6 (amended): when the caller leaves a detection parameter
unspecified (non-positive windowsLen or searchRange, or thr outside
(0,1]), the detection operation substitutes windowsLen = 120, thr = 0.9,
searchRange = 60; in-range parameters pass through unchanged, and running
detection on the substituted triple is identical to running it on the
caller's triple. -/
theorem default_params_substitution (params : PeakDetectionParams) :
    (params.windowsLen ≤ 0 → (normalizeParams params).windowsLen = 120) ∧
    (params.thr ≤ 0 ∨ 1 < params.thr → (normalizeParams params).thr = 9 / 10) ∧
    (params.searchRange ≤ 0 → (normalizeParams params).searchRange = 60) ∧
    (0 < params.windowsLen → (normalizeParams params).windowsLen = params.windowsLen) ∧
    (0 < params.thr ∧ params.thr ≤ 1 → (normalizeParams params).thr = params.thr) ∧
    (0 < params.searchRange →
      (normalizeParams params).searchRange = params.searchRange) ∧
    (∀ (comments : List TwitchChatComment) (secondsDt : ℤ),
      FindHotCommentsWithParams comments secondsDt (normalizeParams params) =
        FindHotCommentsWithParams comments secondsDt params) := by
  refine ⟨?_, ?_, ?_, ?_, ?_, ?_, ?_⟩
  · intro h
    unfold normalizeParams
    dsimp only
    rw [if_pos h]
  · intro h
    unfold normalizeParams
    dsimp only
    rw [if_pos h]
  · intro h
    unfold normalizeParams
    dsimp only
    rw [if_pos h]
  · intro h
    unfold normalizeParams
    dsimp only
    rw [if_neg (by omega)]
  · intro h
    unfold normalizeParams
    dsimp only
    rw [if_neg]
    push_neg
    exact h
  · intro h
    unfold normalizeParams
    dsimp only
    rw [if_neg (by omega)]
  · intro comments secondsDt
    unfold FindHotCommentsWithParams
    rw [normalizeParams_idem]
    unfold detectPreMerge
    rw [normalizeParams_idem]

theorem default_params_substitution_witness :
    ((0 : ℤ) ≤ 0) ∧ ((2 : ℚ) ≤ 0 ∨ 1 < (2 : ℚ)) ∧ ((-3 : ℤ) ≤ 0) ∧
    (normalizeParams ⟨0, 2, -3⟩).windowsLen = 120 ∧
    (normalizeParams ⟨0, 2, -3⟩).thr = 9 / 10 ∧
    (normalizeParams ⟨0, 2, -3⟩).searchRange = 60 := by
  have h := default_params_substitution ⟨0, 2, -3⟩
  exact ⟨by decide, Or.inr (by norm_num), by decide,
    h.1 (by decide), h.2.1 (Or.inr (by norm_num)), h.2.2.1 (by decide)⟩

/-! ### The single-comment scenario (C5) -/

lemma insertionSort_eq_self {α : Type} (r : α → α → Prop) [DecidableRel r] :
    ∀ l : List α, l.Pairwise r → l.insertionSort r = l := by
  intro l
  induction l with
  | nil => intro _; rfl
  | cons a t ih =>
    intro hp
    show List.orderedInsert r a (t.insertionSort r) = a :: t
    rw [ih hp.of_cons]
    cases t with
    | nil => rfl
    | cons b t2 =>
      show (if r a b then a :: b :: t2 else b :: List.orderedInsert r a t2) = a :: b :: t2
      rw [if_pos (List.rel_of_pairwise_cons hp (List.mem_cons_self _ _))]

lemma sum_range_indicator (n k0 : ℕ) :
    ((List.range n).map fun k => if k = k0 then (1 : ℚ) else 0).sum =
      if k0 < n then 1 else 0 := by
  induction n with
  | zero => simp
  | succ m ih =>
    rw [List.range_succ, List.map_append, List.sum_append, ih]
    by_cases h1 : k0 < m
    · have h2 : ¬ m = k0 := by omega
      have h3 : k0 < m + 1 := by omega
      simp [h2, h1, h3]
    · by_cases h2 : m = k0
      · have h3 : k0 < m + 1 := by omega
        simp [h1, h2, h3]
      · have h3 : ¬ k0 < m + 1 := by omega
        simp [h1, h2, h3]

lemma single100_params_normalized :
    normalizeParams ⟨420, 9 / 10, 210⟩ = ⟨420, 9 / 10, 210⟩ :=
  normalizeParams_of_pos _ (by decide) (by norm_num) (by norm_num) (by decide)

lemma single100_totalSeconds : detectTotalSeconds [⟨100⟩] = 101 := by
  have hmax : maxOffsetOf (detectOffsets [⟨100⟩]) = 100 := by
    show (if (0 : ℚ) < 100 then (100 : ℚ) else 0) = 100
    norm_num
  unfold detectTotalSeconds
  rw [hmax]
  decide

lemma single100_count_getD (j : ℕ) :
    (detectCount [⟨100⟩]).getD j 0 = if j = 100 then 1 else 0 := by
  have hset : detectCount [⟨100⟩] =
      (List.replicate 101 (0 : ℚ)).set 100 ((List.replicate 101 (0 : ℚ)).getD 100 0 + 1) := by
    unfold detectCount countPerSecond
    rw [single100_totalSeconds]
    show (if (0 : ℤ) ≤ ⌊(100 : ℚ)⌋ ∧ ⌊(100 : ℚ)⌋ < (101 : ℤ) then
        (List.replicate 101 (0 : ℚ)).set ⌊(100 : ℚ)⌋.toNat
          ((List.replicate 101 (0 : ℚ)).getD ⌊(100 : ℚ)⌋.toNat 0 + 1)
      else List.replicate 101 0) = _
    have hfl : ⌊(100 : ℚ)⌋ = 100 := by norm_num
    rw [hfl]
    simp
  rw [hset, getD_replicate (0 : ℚ) 0 (by norm_num), zero_add]
  rw [List.getD_eq_getElem?_getD, List.getElem?_set]
  by_cases hj : (100 : ℕ) = j
  · subst hj
    simp
  · rw [if_neg hj]
    have : ¬ j = 100 := fun h => hj h.symm
    rw [if_neg this]
    rcases Nat.lt_or_ge j 101 with h | h
    · rw [← List.getD_eq_getElem?_getD, getD_zero_replicate]
    · rw [← List.getD_eq_getElem?_getD, getD_zero_replicate]

lemma single100_boundedGet (z : ℤ) :
    boundedGet (detectCount [⟨100⟩]) z = if z = 100 then 1 else 0 := by
  unfold boundedGet
  rw [detectCount_length, single100_totalSeconds]
  push_cast
  by_cases hz : 0 ≤ z ∧ z < (101 : ℤ)
  · rw [if_pos hz, single100_count_getD]
    by_cases h100 : z = 100
    · rw [if_pos (by omega : z.toNat = 100), if_pos h100]
    · rw [if_neg (by omega : ¬ z.toNat = 100), if_neg h100]
  · rw [if_neg hz, if_neg (by omega : ¬ z = 100)]

lemma single100_count_length : (detectCount [⟨100⟩]).length = 101 := by
  rw [detectCount_length, single100_totalSeconds]

lemma single100_density_getD (i : ℕ) (hi : i < 101) :
    (detectDensity [⟨100⟩] ⟨420, 9 / 10, 210⟩).getD i 0 = 1 := by
  have hcl := single100_count_length
  unfold detectDensity
  rw [single100_params_normalized]
  have hc : ¬ (detectCount [⟨100⟩]).length = 0 := by omega
  rw [findPeak_eq _ _ hc]
  dsimp only
  have htn : ((420 : ℤ) + 1).toNat = 420 + 1 := by decide
  rw [htn, convSame_ones_getD _ 420 (by omega)]
  have hterm : ∀ k ∈ List.range (420 + 1),
      boundedGet (detectCount [⟨100⟩]) ((i : ℤ) - ((420 / 2 : ℕ) : ℤ) + (k : ℤ)) =
        if k = 310 - i then (1 : ℚ) else 0 := by
    intro k hk
    rw [List.mem_range] at hk
    rw [single100_boundedGet]
    have h210 : ((420 / 2 : ℕ) : ℤ) = 210 := by decide
    by_cases h : (i : ℤ) - ((420 / 2 : ℕ) : ℤ) + (k : ℤ) = 100
    · have hknat : k = 310 - i := by
        rw [h210] at h
        omega
      rw [if_pos h, if_pos hknat]
    · have hknat : ¬ k = 310 - i := by
        rw [h210] at h
        omega
      rw [if_neg h, if_neg hknat]
  rw [List.map_congr_left hterm, sum_range_indicator, if_pos (by omega)]

lemma single100_density_eq :
    detectDensity [⟨100⟩] ⟨420, 9 / 10, 210⟩ = List.replicate 101 1 := by
  have hlen : (detectDensity [⟨100⟩] ⟨420, 9 / 10, 210⟩).length = 101 := by
    rw [detectDensity_length, single100_totalSeconds]
  apply List.ext_getElem
  · rw [hlen, List.length_replicate]
  · intro i h1 h2
    have h101 : i < 101 := by rwa [hlen] at h1
    rw [← List.getD_eq_getElem _ (0 : ℚ) h1, single100_density_getD i h101,
      ← List.getD_eq_getElem _ (0 : ℚ) h2, getD_replicate _ _ h101]

lemma single100_sortAsc :
    sortAsc (List.replicate 101 (1 : ℚ)) = List.replicate 101 1 :=
  insertionSort_eq_self _ _ (List.pairwise_replicate.mpr (Or.inr le_rfl))

lemma single100_thr :
    thrDensityOf (List.replicate 101 (1 : ℚ)) (9 / 10) = 1 := by
  simp only [thrDensityOf]
  rw [single100_sortAsc, List.length_replicate]
  push_cast
  have hmul : (101 : ℚ) * (9 / 10) = 909 / 10 := by norm_num
  have hfl : ⌊(909 / 10 : ℚ)⌋ = 90 := by
    rw [Int.floor_eq_iff] <;> norm_num
  rw [hmul, hfl]
  have hcond : ¬ (101 ≤ ((90 : ℤ)).toNat) := by decide
  rw [if_neg hcond]
  have h90 : ((90 : ℤ)).toNat < 101 := by decide
  exact getD_replicate _ _ h90

lemma single100_specWindow_le (i : ℕ) :
    ∀ a ∈ specWindow (List.replicate 101 (1 : ℚ)) 210 i, a ≤ 1 := by
  intro a ha
  unfold specWindow at ha
  obtain ⟨k, _, rfl⟩ := List.mem_map.mp ha
  unfold boundedGet
  split
  · rename_i h
    rw [List.length_replicate] at h
    rw [getD_replicate _ _ (by omega)]
  · norm_num

lemma single100_marks (i : ℕ) (hi : i < 101) :
    (nmsMarks (List.replicate 101 (1 : ℚ)) 1 210).getD i false = true := by
  have hi2 : i < (List.replicate 101 (1 : ℚ)).length := by simpa using hi
  rw [nmsMarks_getD_iff _ _ _ hi2]
  rw [getD_replicate _ _ hi]
  refine ⟨le_rfl, ?_⟩
  have hmem : (1 : ℚ) ∈ specWindow (List.replicate 101 (1 : ℚ)) 210 i := by
    have := @getD_mem_specWindow (List.replicate 101 (1 : ℚ)) 210 i i hi2 (by simp)
    rwa [getD_replicate _ _ hi] at this
  have h1 : (1 : ℚ) ≤ maxFold (specWindow (List.replicate 101 (1 : ℚ)) 210 i) :=
    le_maxFold hmem
  have h2 : maxFold (specWindow (List.replicate 101 (1 : ℚ)) 210 i) ≤ 1 := by
    refine maxFold_le ?_ (single100_specWindow_le i)
    intro hnil
    have := length_specWindow (List.replicate 101 (1 : ℚ)) 210 i
    rw [hnil] at this
    simp at this
  exact le_antisymm h1 h2

lemma single100_marks_eq :
    nmsMarks (List.replicate 101 (1 : ℚ)) 1 210 = List.replicate 101 true := by
  apply List.ext_getElem
  · rw [length_nmsMarks]
    simp
  · intro i h1 h2
    have h101 : i < 101 := by
      rw [length_nmsMarks, List.length_replicate] at h1
      exact h1
    rw [← List.getD_eq_getElem _ false h1, ← List.getD_eq_getElem _ false h2,
      single100_marks i h101, getD_replicate _ _ h101]

set_option maxRecDepth 4000 in
lemma single100_findPeak :
    findPeakWithParams (detectCount [⟨100⟩]) (normalizeParams ⟨420, 9 / 10, 210⟩) =
      (List.replicate 101 true, List.replicate 101 1) := by
  have hcl := single100_count_length
  have hc : ¬ (detectCount [⟨100⟩]).length = 0 := by omega
  have hconv : convSame (detectCount [⟨100⟩])
      (List.replicate ((420 : ℤ) + 1).toNat 1) = List.replicate 101 1 := by
    have hd := single100_density_eq
    unfold detectDensity at hd
    rw [single100_params_normalized, findPeak_eq _ _ hc] at hd
    exact hd
  rw [single100_params_normalized, findPeak_eq _ _ hc]
  dsimp only
  rw [hconv, single100_thr]
  have htn : ((210 : ℤ)).toNat = 210 := by decide
  rw [htn, single100_marks_eq]

lemma mergeGroups_single_group (sr : ℚ) (h : VodCommentData)
    (t : List VodCommentData)
    (hall : ∀ x ∈ t, x.offsetSeconds - h.offsetSeconds ≤ sr)
    (hsc : ∀ x ∈ t, ¬ h.commentsScore < x.commentsScore) :
    mergeGroups sr (h :: t) = [h] := by
  rw [mergeGroups_cons]
  have htake : (t.takeWhile fun m => m.offsetSeconds - h.offsetSeconds ≤ sr) = t :=
    List.takeWhile_eq_self_iff.mpr fun x hx => by simpa using hall x hx
  have hdrop : (t.dropWhile fun m => m.offsetSeconds - h.offsetSeconds ≤ sr) = [] :=
    List.dropWhile_eq_nil_iff.mpr fun x hx => by simpa using hall x hx
  rw [htake, hdrop, mergeGroups_nil, pickMax_eq_self h t hsc]

lemma single100_premerge :
    detectPreMerge [⟨100⟩] ⟨420, 9 / 10, 210⟩ =
      (List.range 101).map fun (i : ℕ) => (⟨1, (i : ℚ)⟩ : VodCommentData) := by
  unfold detectPreMerge
  rw [single100_findPeak]
  dsimp only
  rw [List.length_replicate]
  have hfilter :
      ((List.range 101).filter fun i => (List.replicate 101 true).getD i false) =
        List.range 101 := by
    rw [List.filter_eq_self]
    intro a ha
    rw [List.mem_range] at ha
    rw [getD_replicate _ _ ha]
  rw [hfilter]
  apply List.map_congr_left
  intro a ha
  rw [List.mem_range] at ha
  rw [getD_replicate _ _ ha]

lemma single100_merge :
    mergeCloseHotMoments ((List.range 101).map fun (i : ℕ) =>
      (⟨1, (i : ℚ)⟩ : VodCommentData)) 210 = [⟨1, 0⟩] := by
  unfold mergeCloseHotMoments
  have hlen : ((List.range 101).map fun (i : ℕ) =>
      (⟨1, (i : ℚ)⟩ : VodCommentData)).length = 101 := by
    rw [List.length_map, List.length_range]
  rw [if_neg (by rw [hlen]; omega)]
  have hsorted : ((List.range 101).map fun (i : ℕ) =>
      (⟨1, (i : ℚ)⟩ : VodCommentData)).Pairwise offLE := by
    refine List.Pairwise.map _ ?_ (List.pairwise_lt_range _)
    intro a b hab
    show (a : ℚ) ≤ (b : ℚ)
    exact_mod_cast Nat.le_of_lt hab
  have hsort : sortByOffset ((List.range 101).map fun (i : ℕ) =>
      (⟨1, (i : ℚ)⟩ : VodCommentData)) =
      (List.range 101).map fun (i : ℕ) => (⟨1, (i : ℚ)⟩ : VodCommentData) :=
    insertionSort_eq_self offLE _ hsorted
  rw [hsort]
  have hL : ((List.range 101).map fun (i : ℕ) => (⟨1, (i : ℚ)⟩ : VodCommentData)) =
      (⟨1, (0 : ℚ)⟩ : VodCommentData) ::
        ((List.range 100).map fun (k : ℕ) =>
          (⟨1, ((k + 1 : ℕ) : ℚ)⟩ : VodCommentData)) := by
    rw [List.range_succ_eq_map, List.map_cons, List.map_map]
    simp [Function.comp]
  rw [hL]
  have hzero : ((⟨1, (0 : ℚ)⟩ : VodCommentData)) = (⟨1, 0⟩ : VodCommentData) := rfl
  rw [hzero]
  apply mergeGroups_single_group
  · intro x hx
    obtain ⟨k, hk, rfl⟩ := List.mem_map.mp hx
    rw [List.mem_range] at hk
    show ((k + 1 : ℕ) : ℚ) - 0 ≤ 210
    rw [sub_zero]
    have : ((k + 1 : ℕ) : ℚ) ≤ ((210 : ℕ) : ℚ) := by
      exact_mod_cast Nat.le_of_lt (by omega : k + 1 < 210)
    simpa using this
  · intro x hx
    obtain ⟨k, hk, rfl⟩ := List.mem_map.mp hx
    exact lt_irrefl 1

lemma single100_hotMoments :
    (FindHotCommentsWithParams [⟨100⟩] 5 ⟨420, 9 / 10, 210⟩).hotMoments =
      [⟨1, 0⟩] := by
  rw [FindHot_hotMoments _ _ _ (by decide), single100_premerge,
    single100_params_normalized]
  exact single100_merge

/-- C5 counterexample: for the single comment at offset 100.0 under the
parameter triple (420, 0.9, 210), the density signal is identically 1, so
the percentile threshold `sorted[90]` equals 1 (not 0), and the returned
hot-moment list is NOT empty: detection returns the moment at offset 0
with score 1. -/
theorem single_comment_counterexample :
    thrDensityOf (detectDensity [⟨100⟩] ⟨420, 9 / 10, 210⟩) (9 / 10) = 1 ∧
    thrDensityOf (detectDensity [⟨100⟩] ⟨420, 9 / 10, 210⟩) (9 / 10) ≠ 0 ∧
    (FindHotCommentsWithParams [⟨100⟩] 5 ⟨420, 9 / 10, 210⟩).hotMoments ≠ [] := by
  have h1 : thrDensityOf (detectDensity [⟨100⟩] ⟨420, 9 / 10, 210⟩) (9 / 10) = 1 := by
    rw [single100_density_eq]
    exact single100_thr
  refine ⟨h1, by rw [h1]; norm_num, ?_⟩
  rw [single100_hotMoments]
  exact List.cons_ne_nil _ _

/-- C5 (amended): the single comment at offset 100.0 under the triple
(windowsLen = 420, thr = 0.9, searchRange = 210) gives T = 101 seconds,
density 1 at second 100 and at most 1 everywhere (the 421-second moving
window always covers the comment, so the density is identically 1), a
threshold `sorted[floor(101*0.9)] = sorted[90] = 1`, and the returned
hot-moment list holds exactly ONE moment, at offset 0 with score 1: every
second is marked a peak and the merge pass keeps the group head. -/
theorem single_comment_detection :
    detectTotalSeconds [⟨100⟩] = 101 ∧
    (detectDensity [⟨100⟩] ⟨420, 9 / 10, 210⟩).getD 100 0 = 1 ∧
    (∀ i : ℕ, (detectDensity [⟨100⟩] ⟨420, 9 / 10, 210⟩).getD i 0 ≤ 1) ∧
    thrDensityOf (detectDensity [⟨100⟩] ⟨420, 9 / 10, 210⟩) (9 / 10) = 1 ∧
    (FindHotCommentsWithParams [⟨100⟩] 5 ⟨420, 9 / 10, 210⟩).hotMoments =
      [⟨1, 0⟩] := by
  refine ⟨single100_totalSeconds, single100_density_getD 100 (by omega), ?_, ?_,
    single100_hotMoments⟩
  · intro i
    rw [single100_density_eq]
    rcases Nat.lt_or_ge i 101 with h | h
    · rw [getD_replicate _ _ h]
    · rw [List.getD_eq_default _ _ (by simpa using h)]
      norm_num
  · rw [single100_density_eq]
    exact single100_thr

end LumiTime
